import Mathlib

set_option autoImplicit false

namespace AIAssistant

/-!
Shallow embedding of the ai-assistant repository core:
  * `src/agent/tools/reminder.js` — reminder creation, due-item scan, mark-delivered
  * `src/services/whatsapp.js`    — session history, inbound dispatch, message chunking
  * `src/index.js`                — cron-trigger secret guard and the reminders route

Timestamps are modelled as `Int` millisecond values (JS `Date` time values).
A JS `Invalid Date` (`NaN` time value) is modelled as `none : Option Int`;
every `<=` comparison against it is `false`, exactly as `NaN` comparisons in JS.
JS strings are modelled as `List Char`.
-/

/-- A stored reminder, mirroring the object literal built at reminder.js lines 37-43.
The JS id string is `rem_` followed by the `Date.now()` millisecond value; since the
prefix is fixed, the id is modelled by its numeric part. -/
structure Reminder where
  id : Nat
  message : List Char
  triggerAt : Option Int
  createdAt : Int
  sent : Bool
deriving Repr, DecidableEq

/-- The in-memory `reminders` Map, as its insertion-ordered entry list. -/
abbrev ReminderStore := List (Nat × Reminder)

/-- JS `Map.set`: replace the value in place if the key exists, else append. -/
def mapSet (store : ReminderStore) (k : Nat) (v : Reminder) : ReminderStore :=
  if store.any (fun p => p.1 == k) then
    store.map (fun p => if p.1 == k then (k, v) else p)
  else
    store ++ [(k, v)]

/-- One `if (delayX) triggerAt = addX(triggerAt, delayX)` step: the truthiness test
skips an absent or zero offset; date-fns addMinutes/addHours/addDays add the
corresponding millisecond amount (days modelled as 24 hours; civil-time effects
are outside the embedding). -/
def applyDelay (o : Option Nat) (msPerUnit : Int) (t : Int) : Int :=
  match o with
  | none => t
  | some k => if k = 0 then t else t + msPerUnit * (k : Int)

/-- The offset branch of reminder.js lines 29-32: start from `now`, then add
minutes, hours, days in source order. -/
def offsetsFrom (now : Int) (dm dh dd : Option Nat) : Int :=
  applyDelay dd 86400000 (applyDelay dh 3600000 (applyDelay dm 60000 now))

/-- The JSON payload returned by `reminderTool.func`: `{success:true, reminderId,
message, scheduledFor}` on success, or the `{success:false, error}` payload produced
by the catch block when date-fns `format` throws on an invalid date. -/
inductive CreateResult where
  | success (reminderId : Nat) (message : List Char) (scheduledFor : Int)
  | failure
deriving Repr, DecidableEq

/-- `reminderTool.func` (reminder.js lines 22-56). `parse` models `new Date(string)`
(`none` = Invalid Date). `now` models the `new Date()` / creation instant; `nowMs`
models the `Date.now()` read used for the id. The truthiness test `if (specificTime)`
sends an empty string to the offset branch. The item is inserted into the store
before `format(triggerAt, ...)` runs, so the catch path still leaves the item stored. -/
def reminderCreate (parse : List Char → Option Int) (now : Int) (nowMs : Nat)
    (message : List Char) (delayMinutes delayHours delayDays : Option Nat)
    (specificTime : Option (List Char)) (store : ReminderStore) :
    CreateResult × ReminderStore :=
  let triggerAt : Option Int :=
    match specificTime with
    | some s =>
        if s = [] then some (offsetsFrom now delayMinutes delayHours delayDays)
        else parse s
    | none => some (offsetsFrom now delayMinutes delayHours delayDays)
  let rid := nowMs
  let item : Reminder := ⟨rid, message, triggerAt, now, false⟩
  let store2 := mapSet store rid item
  match triggerAt with
  | some t => (.success rid message t, store2)
  | none => (.failure, store2)

/-- JS `reminder.triggerAt <= now`: false whenever `triggerAt` is an Invalid Date. -/
def dueLe (o : Option Int) (now : Int) : Bool :=
  match o with
  | some t => t ≤ now
  | none => false

/-- `getPendingReminders` (reminder.js lines 60-71): every stored value with
`!sent && triggerAt <= now`, in insertion order. -/
def getPendingReminders (now : Int) (store : ReminderStore) : List Reminder :=
  (store.filter (fun p => !p.2.sent && dueLe p.2.triggerAt now)).map (fun p => p.2)

/-- `markReminderSent` (reminder.js lines 74-79): set `sent := true` on the entry
with the given id; no-op for an unknown id. -/
def markReminderSent (store : ReminderStore) (reminderId : Nat) : ReminderStore :=
  store.map (fun p => if p.1 == reminderId then (p.1, { p.2 with sent := true }) else p)

/-- `processPendingReminders` (whatsapp.js lines 151-168): scan, deliver each
(delivery always succeeds in the model), mark delivered, return the count. -/
def processPendingReminders (now : Int) (store : ReminderStore) : Nat × ReminderStore :=
  let pending := getPendingReminders now store
  (pending.length, pending.foldl (fun st r => markReminderSent st r.id) store)

/-- Helper: `mapSet` always leaves an entry with the written key present. -/
theorem mapSet_any_self (store : ReminderStore) (k : Nat) (v : Reminder) :
    (mapSet store k v).any (fun p => p.1 == k) = true := by
  unfold mapSet
  split
  · rename_i h
    rcases List.any_eq_true.mp h with ⟨p, hp, hpk⟩
    refine List.any_eq_true.mpr ⟨(k, v), ?_, by simp⟩
    refine List.mem_map.mpr ⟨p, hp, ?_⟩
    simp [hpk]
  · simp

/-- Helper: writing an already-present key does not change the store size. -/
theorem mapSet_length_of_any (store : ReminderStore) (k : Nat) (v : Reminder)
    (h : store.any (fun p => p.1 == k) = true) :
    (mapSet store k v).length = store.length := by
  unfold mapSet
  rw [if_pos h, List.length_map]

/-- Helper: membership in the due-item scan, unfolded to the filter condition. -/
theorem mem_getPendingReminders_iff (now : Int) (store : ReminderStore) (r : Reminder) :
    r ∈ getPendingReminders now store ↔
      ∃ k, (k, r) ∈ store ∧ r.sent = false ∧ dueLe r.triggerAt now = true := by
  unfold getPendingReminders
  constructor
  · intro hr
    rcases List.mem_map.mp hr with ⟨p, hpmem, hp2⟩
    rcases List.mem_filter.mp hpmem with ⟨hps, hcond⟩
    simp only [Bool.and_eq_true, Bool.not_eq_true'] at hcond
    refine ⟨p.1, ?_, ?_, ?_⟩
    · rw [← hp2]; exact hps
    · rw [← hp2]; exact hcond.1
    · rw [← hp2]; exact hcond.2
  · rintro ⟨k, hmem, hsent, hdue⟩
    refine List.mem_map.mpr ⟨(k, r), ?_, rfl⟩
    exact List.mem_filter.mpr ⟨hmem, by simp [hsent, hdue]⟩

/-- Claim C1 counterexample: invoking `reminderTool.func` with no explicit time and
no offsets does NOT fail with a structured error — it succeeds and stores an item
due at the creation instant. -/
theorem reminderCreate_noTiming_cex :
    reminderCreate (fun _ => none) 0 0 ['m'] none none none none [] =
      (.success 0 ['m'] 0, [(0, ⟨0, ['m'], some 0, 0, false⟩)]) := by
  rfl

/-- Claim C1 (amended): with no explicit time and no offsets supplied, creation
succeeds (no InvalidSchedule failure exists in the code): the stored item is due
at the creation instant and the returned payload has `success:true`. -/
theorem reminderCreate_noTiming_succeeds (parse : List Char → Option Int)
    (now : Int) (nowMs : Nat) (message : List Char) (store : ReminderStore) :
    reminderCreate parse now nowMs message none none none none store =
      (.success nowMs message now,
       mapSet store nowMs ⟨nowMs, message, some now, now, false⟩) := by
  rfl

/-- Claim C2 counterexample: two successful creates in the same millisecond return
the same identifier, and the second overwrites the first stored item (the store
still holds a single item, the second one). -/
theorem reminderCreate_sameMs_collision_cex :
    (reminderCreate (fun _ => none) 0 5 ['a'] none none none none []).1 =
        .success 5 ['a'] 0 ∧
    reminderCreate (fun _ => none) 1 5 ['b'] none none none none
        (reminderCreate (fun _ => none) 0 5 ['a'] none none none none []).2 =
      (.success 5 ['b'] 1, [(5, ⟨5, ['b'], some 1, 1, false⟩)]) := by
  constructor <;> rfl

/-- Projection of the returned identifier out of a create result. -/
def createdIdOf : CreateResult → Option Nat
  | .success rid _ _ => some rid
  | .failure => none

/-- Claim C2 (amended): the identifier is determined by the `Date.now()` millisecond
value: creates at distinct milliseconds return distinct identifiers, but two creates
within the same millisecond return the same identifier and the second overwrites the
first stored item (store size unchanged). -/
theorem reminderCreate_id_behavior (parse : List Char → Option Int)
    (now1 now2 : Int) (ms1 ms2 : Nat) (m1 m2 : List Char) (store : ReminderStore)
    (hne : ms1 ≠ ms2) :
    createdIdOf (reminderCreate parse now1 ms1 m1 none none none none store).1 = some ms1 ∧
    createdIdOf (reminderCreate parse now1 ms1 m1 none none none none store).1 ≠
      createdIdOf (reminderCreate parse now2 ms2 m2 none none none none store).1 ∧
    ((reminderCreate parse now2 ms1 m2 none none none none
        (reminderCreate parse now1 ms1 m1 none none none none store).2).2).length =
      ((reminderCreate parse now1 ms1 m1 none none none none store).2).length := by
  refine ⟨rfl, ?_, ?_⟩
  · simp [reminderCreate, createdIdOf, hne]
  · show (mapSet (mapSet store ms1 _) ms1 _).length = (mapSet store ms1 _).length
    exact mapSet_length_of_any _ _ _ (mapSet_any_self _ _ _)

/-- Witness for `reminderCreate_id_behavior` at a concrete input. -/
theorem reminderCreate_id_behavior_witness :
    createdIdOf (reminderCreate (fun _ => none) 0 1 ['a'] none none none none []).1 = some 1 ∧
    createdIdOf (reminderCreate (fun _ => none) 0 1 ['a'] none none none none []).1 ≠
      createdIdOf (reminderCreate (fun _ => none) 0 2 ['b'] none none none none []).1 ∧
    ((reminderCreate (fun _ => none) 0 1 ['b'] none none none none
        (reminderCreate (fun _ => none) 0 1 ['a'] none none none none []).2).2).length =
      ((reminderCreate (fun _ => none) 0 1 ['a'] none none none none []).2).length :=
  reminderCreate_id_behavior (fun _ => none) 0 0 1 2 ['a'] ['b'] [] (by decide)

/-- Helper: a supplied positive (or absent) offset adds exactly its scaled value. -/
theorem applyDelay_pos_eq (o : Option Nat) (u t : Int)
    (hpos : ∀ k, o = some k → 0 < k) :
    applyDelay o u t = t + u * ((o.getD 0 : Nat) : Int) := by
  rcases o with _ | k
  · simp [applyDelay]
  · have hk : k ≠ 0 := Nat.pos_iff_ne_zero.mp (hpos k rfl)
    simp [applyDelay, hk]

/-- Claim C3: with no explicit time and a non-empty set of positive offsets, the
stored item is due at creation time plus the sum of all supplied offsets, and the
call succeeds. -/
theorem reminderCreate_offsets_additive (parse : List Char → Option Int)
    (now : Int) (nowMs : Nat) (message : List Char) (store : ReminderStore)
    (dm dh dd : Option Nat)
    (hm : ∀ k, dm = some k → 0 < k) (hh : ∀ k, dh = some k → 0 < k)
    (hd : ∀ k, dd = some k → 0 < k)
    (hne : dm ≠ none ∨ dh ≠ none ∨ dd ≠ none) :
    reminderCreate parse now nowMs message dm dh dd none store =
      (.success nowMs message
        (now + 60000 * ((dm.getD 0 : Nat) : Int) + 3600000 * ((dh.getD 0 : Nat) : Int)
          + 86400000 * ((dd.getD 0 : Nat) : Int)),
       mapSet store nowMs
        ⟨nowMs, message,
         some (now + 60000 * ((dm.getD 0 : Nat) : Int) + 3600000 * ((dh.getD 0 : Nat) : Int)
           + 86400000 * ((dd.getD 0 : Nat) : Int)), now, false⟩) := by
  have hoff : offsetsFrom now dm dh dd =
      now + 60000 * ((dm.getD 0 : Nat) : Int) + 3600000 * ((dh.getD 0 : Nat) : Int)
        + 86400000 * ((dd.getD 0 : Nat) : Int) := by
    rw [offsetsFrom, applyDelay_pos_eq _ _ _ hd, applyDelay_pos_eq _ _ _ hh,
      applyDelay_pos_eq _ _ _ hm]
  simp [reminderCreate, hoff]

/-- Witness for `reminderCreate_offsets_additive` at a concrete input:
1 minute + 2 hours supplied gives a due time 7260000 ms after creation. -/
theorem reminderCreate_offsets_additive_witness :
    reminderCreate (fun _ => none) 0 7 ['a'] (some 1) (some 2) none none [] =
      (.success 7 ['a'] 7260000, [(7, ⟨7, ['a'], some 7260000, 0, false⟩)]) :=
  (reminderCreate_offsets_additive (fun _ => none) 0 7 ['a'] [] (some 1) (some 2) none
      (by intro k hk; simp at hk; omega)
      (by intro k hk; simp at hk; omega)
      (by intro k hk; simp at hk)
      (Or.inl (by simp))).trans (by decide)

/-- Claim C4: the due-item scan returns exactly the stored values with
`sent = false` and a (valid) trigger time at or before `now`; it never returns a
delivered item and never returns an item whose trigger time is strictly future. -/
theorem getPendingReminders_spec (now : Int) (store : ReminderStore) :
    (∀ r : Reminder, r ∈ getPendingReminders now store ↔
      ∃ k, (k, r) ∈ store ∧ r.sent = false ∧ dueLe r.triggerAt now = true) ∧
    (∀ r ∈ getPendingReminders now store, r.sent = false) ∧
    (∀ r ∈ getPendingReminders now store, ∀ t : Int, r.triggerAt = some t → t ≤ now) := by
  refine ⟨fun r => mem_getPendingReminders_iff now store r, ?_, ?_⟩
  · intro r hr
    obtain ⟨k, _, hsent, _⟩ := (mem_getPendingReminders_iff now store r).mp hr
    exact hsent
  · intro r hr t ht
    obtain ⟨k, _, _, hdue⟩ := (mem_getPendingReminders_iff now store r).mp hr
    rw [ht] at hdue
    exact of_decide_eq_true hdue

/-- Witness for `getPendingReminders_spec` at a concrete store. -/
theorem getPendingReminders_spec_witness :
    ((⟨1, ['a'], some 0, 0, false⟩ : Reminder) ∈
        getPendingReminders 0 [(1, ⟨1, ['a'], some 0, 0, false⟩)] ↔
      ∃ k, (k, (⟨1, ['a'], some 0, 0, false⟩ : Reminder)) ∈
          [((1 : Nat), (⟨1, ['a'], some 0, 0, false⟩ : Reminder))] ∧
        (⟨1, ['a'], some 0, 0, false⟩ : Reminder).sent = false ∧
        dueLe (⟨1, ['a'], some 0, 0, false⟩ : Reminder).triggerAt 0 = true) :=
  (getPendingReminders_spec 0 [(1, ⟨1, ['a'], some 0, 0, false⟩)]).1 _

/-- Claim C9: an unparseable explicit time makes the call return the structured
failure payload, yet the store has already been mutated: the invalid-date item was
inserted before `format` threw, and no due-item scan ever returns it. -/
theorem reminderCreate_invalid_time_not_atomic (parse : List Char → Option Int)
    (now : Int) (nowMs : Nat) (message s : List Char) (store : ReminderStore)
    (hparse : parse s = none) (hs : s ≠ []) :
    (reminderCreate parse now nowMs message none none none (some s) store).1 = .failure ∧
    (reminderCreate parse now nowMs message none none none (some s) store).2 =
      mapSet store nowMs ⟨nowMs, message, none, now, false⟩ ∧
    (mapSet store nowMs ⟨nowMs, message, none, now, false⟩).any
      (fun p => p.1 == nowMs) = true ∧
    ∀ t : Int, (⟨nowMs, message, none, now, false⟩ : Reminder) ∉
      getPendingReminders t
        (reminderCreate parse now nowMs message none none none (some s) store).2 := by
  refine ⟨?_, ?_, mapSet_any_self _ _ _, ?_⟩
  · simp [reminderCreate, hs, hparse]
  · simp [reminderCreate, hs, hparse]
  · intro t hmem
    obtain ⟨k, _, _, hdue⟩ := (mem_getPendingReminders_iff t _ _).mp hmem
    simp [dueLe] at hdue

/-- Witness for `reminderCreate_invalid_time_not_atomic` at a concrete input. -/
theorem reminderCreate_invalid_time_not_atomic_witness :
    (reminderCreate (fun _ => none) 0 3 ['m'] none none none (some ['x']) []).1 = .failure ∧
    (reminderCreate (fun _ => none) 0 3 ['m'] none none none (some ['x']) []).2 =
      mapSet [] 3 ⟨3, ['m'], none, 0, false⟩ ∧
    (mapSet [] 3 ⟨3, ['m'], none, 0, false⟩).any (fun p => p.1 == 3) = true ∧
    ∀ t : Int, (⟨3, ['m'], none, 0, false⟩ : Reminder) ∉
      getPendingReminders t
        (reminderCreate (fun _ => none) 0 3 ['m'] none none none (some ['x']) []).2 :=
  reminderCreate_invalid_time_not_atomic (fun _ => none) 0 3 ['m'] ['x'] [] rfl (by decide)

/-- Message role in the conversation history (whatsapp.js lines 85-88). -/
inductive Role where
  | user
  | assistant
deriving Repr, DecidableEq

/-- One `{role, content}` history entry. -/
structure HistEntry where
  role : Role
  content : List Char
deriving Repr, DecidableEq

/-- The history update of `handleIncomingMessage` (whatsapp.js lines 85-93):
push the user entry then the assistant entry, and when the length exceeds 20,
`splice(0, length - 20)` keeps only the last 20 entries. -/
def appendTurn (history : List HistEntry) (userText assistantText : List Char) :
    List HistEntry :=
  let h2 := history ++ [⟨.user, userText⟩, ⟨.assistant, assistantText⟩]
  if 20 < h2.length then h2.drop (h2.length - 20) else h2

/-- JS `String.prototype.trim` whitespace test (the common whitespace characters). -/
def isWS (c : Char) : Bool := c = ' ' || c = '\n' || c = '\t' || c = '\r'

/-- JS `.trim()`: drop leading and trailing whitespace. -/
def trimBoth (s : List Char) : List Char :=
  ((s.dropWhile isWS).reverse.dropWhile isWS).reverse

/-- An inbound Twilio event, resolved at the external boundaries: an audio event
carries the outcome of the external transcription collaborator
(`transcribeAudio`, which either yields text or fails), a text event carries the
optional `Body` field. -/
inductive Incoming where
  | audio (transcription : Except Unit (List Char))
  | text (body : Option (List Char))

/-- An outbound send performed by the dispatcher, one constructor per distinct
`sendWhatsAppMessage` call site in `handleIncomingMessage`; the fixed apology
strings are abstracted to tags since only their identity matters. -/
inductive OutMsg where
  | transcribeApology
  | emptyApology
  | reply (text : List Char)
deriving Repr, DecidableEq

/-- Observable outcome of dispatching one inbound event: the ordered outbound
sends to the sender, and `some h` exactly when `conversationHistory.set` ran
(with the new history value), `none` when the session was left untouched. -/
structure DispatchOut where
  sent : List OutMsg
  newHistory : Option (List HistEntry)
deriving Repr, DecidableEq

/-- The shared tail of the dispatcher (whatsapp.js lines 71-97): blank text sends
the fixed fallback and stops; otherwise the agent runs, the turn is appended, and
the response is sent. -/
def processText (agent : List Char → List HistEntry → List Char)
    (history : List HistEntry) (messageText : List Char) : DispatchOut :=
  if trimBoth messageText = [] then ⟨[.emptyApology], none⟩
  else
    let response := agent messageText history
    ⟨[.reply response], some (appendTurn history messageText response)⟩

/-- `handleIncomingMessage` (whatsapp.js lines 49-106) for the session of the
sender: `agent` models the external `runAgent`, `history` the current session of
the sender. A failed transcription sends the fixed apology and returns before any
history or agent activity; `twilioBody.Body` being falsy (missing or empty)
resolves the message text to the empty text. -/
def handleIncomingMessage (agent : List Char → List HistEntry → List Char)
    (history : List HistEntry) : Incoming → DispatchOut
  | .audio (.error _) => ⟨[.transcribeApology], none⟩
  | .audio (.ok t) => processText agent history t
  | .text body => processText agent history (body.getD [])

/-- Claim C5: a completed turn appends the user entry then the assistant entry and
trims from the front to at most 20 entries; 11 turns applied to a fresh session
leave exactly the 20 most recent entries in their original relative order. -/
theorem appendTurn_spec (history : List HistEntry) (u a : List Char)
    (p1 p2 p3 p4 p5 p6 p7 p8 p9 p10 p11 : List Char × List Char) :
    (appendTurn history u a =
      (history ++ [HistEntry.mk .user u, HistEntry.mk .assistant a]).drop
        ((history.length + 2) - 20)) ∧
    (history.length ≤ 20 → (appendTurn history u a).length ≤ 20) ∧
    (List.foldl (fun h p => appendTurn h p.1 p.2) []
        [p1, p2, p3, p4, p5, p6, p7, p8, p9, p10, p11] =
      [HistEntry.mk .user p2.1, HistEntry.mk .assistant p2.2,
       HistEntry.mk .user p3.1, HistEntry.mk .assistant p3.2,
       HistEntry.mk .user p4.1, HistEntry.mk .assistant p4.2,
       HistEntry.mk .user p5.1, HistEntry.mk .assistant p5.2,
       HistEntry.mk .user p6.1, HistEntry.mk .assistant p6.2,
       HistEntry.mk .user p7.1, HistEntry.mk .assistant p7.2,
       HistEntry.mk .user p8.1, HistEntry.mk .assistant p8.2,
       HistEntry.mk .user p9.1, HistEntry.mk .assistant p9.2,
       HistEntry.mk .user p10.1, HistEntry.mk .assistant p10.2,
       HistEntry.mk .user p11.1, HistEntry.mk .assistant p11.2]) := by
  have hform : appendTurn history u a =
      (history ++ [HistEntry.mk .user u, HistEntry.mk .assistant a]).drop
        ((history.length + 2) - 20) := by
    unfold appendTurn
    by_cases h : 20 < history.length + 2
    · simp only [List.length_append, List.length_cons, List.length_nil]
      rw [if_pos (by simpa using h)]
    · have h0 : history.length + 2 - 20 = 0 := by omega
      simp only [List.length_append, List.length_cons, List.length_nil]
      rw [if_neg (by simpa using h), h0, List.drop_zero]
  refine ⟨hform, ?_, ?_⟩
  · intro hle
    rw [hform, List.length_drop]
    simp only [List.length_append, List.length_cons, List.length_nil]
    omega
  · simp only [List.foldl_cons, List.foldl_nil]
    norm_num [appendTurn]

/-- Witness for `appendTurn_spec` at a concrete input. -/
theorem appendTurn_spec_witness :
    (appendTurn [] ['u'] ['a'] =
      (([] : List HistEntry) ++
        [HistEntry.mk .user ['u'], HistEntry.mk .assistant ['a']]).drop
        ((List.length ([] : List HistEntry) + 2) - 20)) ∧
    (List.length ([] : List HistEntry) ≤ 20 → (appendTurn [] ['u'] ['a']).length ≤ 20) ∧
    (List.foldl (fun h p => appendTurn h p.1 p.2) []
        [(['x'], ['y']), (['x'], ['y']), (['x'], ['y']), (['x'], ['y']),
         (['x'], ['y']), (['x'], ['y']), (['x'], ['y']), (['x'], ['y']),
         (['x'], ['y']), (['x'], ['y']), (['x'], ['y'])] =
      [HistEntry.mk .user ['x'], HistEntry.mk .assistant ['y'],
       HistEntry.mk .user ['x'], HistEntry.mk .assistant ['y'],
       HistEntry.mk .user ['x'], HistEntry.mk .assistant ['y'],
       HistEntry.mk .user ['x'], HistEntry.mk .assistant ['y'],
       HistEntry.mk .user ['x'], HistEntry.mk .assistant ['y'],
       HistEntry.mk .user ['x'], HistEntry.mk .assistant ['y'],
       HistEntry.mk .user ['x'], HistEntry.mk .assistant ['y'],
       HistEntry.mk .user ['x'], HistEntry.mk .assistant ['y'],
       HistEntry.mk .user ['x'], HistEntry.mk .assistant ['y'],
       HistEntry.mk .user ['x'], HistEntry.mk .assistant ['y']]) :=
  appendTurn_spec [] ['u'] ['a'] (['x'], ['y']) (['x'], ['y']) (['x'], ['y'])
    (['x'], ['y']) (['x'], ['y']) (['x'], ['y']) (['x'], ['y']) (['x'], ['y'])
    (['x'], ['y']) (['x'], ['y']) (['x'], ['y'])

/-- Claim C7: when the transcription of an inbound audio event fails, the
dispatcher sends exactly the one fixed apology, does not touch the session
history, and never consults the agent (the outcome is independent of it). -/
theorem transcription_failure_isolated
    (a1 a2 : List Char → List HistEntry → List Char)
    (history : List HistEntry) (e : Unit) :
    handleIncomingMessage a1 history (.audio (.error e)) =
      ⟨[.transcribeApology], none⟩ ∧
    handleIncomingMessage a1 history (.audio (.error e)) =
      handleIncomingMessage a2 history (.audio (.error e)) :=
  ⟨rfl, rfl⟩

/-- Combined mutable application state: the reminder Map and the session Map
(`conversationHistory`), both process-wide singletons. -/
structure AppStores where
  reminders : ReminderStore
  sessions : List (List Char × List HistEntry)
deriving Repr, DecidableEq

/-- The secret actually supplied by a request:
`req.headers[..] || req.query.secret` — a missing or empty-string header falls
back to the query parameter verbatim. `none` models JS `undefined`. -/
def suppliedSecret (header query : Option (List Char)) : Option (List Char) :=
  match header with
  | some h => if h = [] then query else some h
  | none => query

/-- `validateCronSecret` (index.js lines 54-60): `next()` runs exactly when
`secret !== process.env.CRON_SECRET` is false; JS strict equality on
string-or-undefined values is plain equality on `Option`. -/
def validateCronSecret (header query env : Option (List Char)) : Bool :=
  suppliedSecret header query == env

/-- Body of a cron-route JSON response: the 401 `{error: Unauthorized}` body or
the 200 `{success:true, processed:count}` body. -/
inductive CronBody where
  | unauthorizedError
  | processed (count : Nat)
deriving Repr, DecidableEq

/-- An HTTP response of the cron routes. -/
structure CronResponse where
  status : Nat
  body : CronBody
deriving Repr, DecidableEq

/-- The `/cron/reminders` route (index.js lines 77-86) guarded by
`validateCronSecret`: on a secret match, process pending reminders and report the
count; on a mismatch, 401 with the error body and untouched state. -/
def cronRemindersRoute (header query env : Option (List Char)) (now : Int)
    (stores : AppStores) : CronResponse × AppStores :=
  if validateCronSecret header query env then
    let result := processPendingReminders now stores.reminders
    (⟨200, .processed result.1⟩, { stores with reminders := result.2 })
  else
    (⟨401, .unauthorizedError⟩, stores)

/-- Claim C8: a trigger request whose supplied secret does not match the
configured one gets HTTP 401 with the JSON error body, and neither the
scheduled-item store nor the session store is mutated. -/
theorem cron_wrong_secret_no_side_effects (header query env : Option (List Char))
    (now : Int) (stores : AppStores) (h : suppliedSecret header query ≠ env) :
    cronRemindersRoute header query env now stores =
      (⟨401, .unauthorizedError⟩, stores) := by
  have hv : validateCronSecret header query env = false := by
    simp [validateCronSecret, h]
  simp [cronRemindersRoute, hv]

/-- Witness for `cron_wrong_secret_no_side_effects` at a concrete input. -/
theorem cron_wrong_secret_no_side_effects_witness :
    cronRemindersRoute (some ['x']) none (some ['y']) 0 ⟨[], []⟩ =
      (⟨401, .unauthorizedError⟩, ⟨[], []⟩) :=
  cron_wrong_secret_no_side_effects (some ['x']) none (some ['y']) 0 ⟨[], []⟩
    (by decide)

/-- Claim C10: with `CRON_SECRET` unset, a request supplying no secret at all
passes the guard and the guarded action runs; in general the 401 branch is taken
exactly when the supplied secret differs from the configured value. -/
theorem cron_absent_secret_passes (now : Int) (stores : AppStores) :
    validateCronSecret none none none = true ∧
    cronRemindersRoute none none none now stores =
      (⟨200, .processed (processPendingReminders now stores.reminders).1⟩,
       { stores with reminders := (processPendingReminders now stores.reminders).2 }) ∧
    (∀ header query env : Option (List Char),
      (cronRemindersRoute header query env now stores).1.status = 401 ↔
        suppliedSecret header query ≠ env) := by
  refine ⟨rfl, rfl, ?_⟩
  intro header query env
  by_cases h : suppliedSecret header query = env
  · have hv : validateCronSecret header query env = true := by
      simp [validateCronSecret, h]
    simp [cronRemindersRoute, hv, h]
  · have hv : validateCronSecret header query env = false := by
      simp [validateCronSecret, h]
    simp [cronRemindersRoute, hv, h]

/-- Witness for `cron_absent_secret_passes` at a concrete input. -/
theorem cron_absent_secret_passes_witness :
    validateCronSecret none none none = true ∧
    cronRemindersRoute none none none 0 ⟨[], []⟩ =
      (⟨200, .processed (processPendingReminders 0 (AppStores.mk [] []).reminders).1⟩,
       { (AppStores.mk [] []) with
          reminders := (processPendingReminders 0 (AppStores.mk [] []).reminders).2 }) ∧
    (∀ header query env : Option (List Char),
      (cronRemindersRoute header query env 0 ⟨[], []⟩).1.status = 401 ↔
        suppliedSecret header query ≠ env) :=
  cron_absent_secret_passes 0 ⟨[], []⟩

/-- Index of the last occurrence of `c` in a list, if any (0-based). -/
def lastOcc (c : Char) : List Char → Option Nat
  | [] => none
  | a :: rest =>
    match lastOcc c rest with
    | some j => some (j + 1)
    | none => if a = c then some 0 else none

/-- JS `String.prototype.lastIndexOf(c, pos)`: the last index `≤ pos` holding `c`
(`none` for JS `-1`). Only the prefix up to index `pos` inclusive is searched. -/
def lastIndexOf (c : Char) (s : List Char) (pos : Nat) : Option Nat :=
  lastOcc c (s.take (pos + 1))

/-- The break-point selection of `splitMessage` (whatsapp.js lines 186-192):
prefer the last newline at or before `maxLength` unless it is absent or before the
midpoint (`breakPoint < maxLength / 2`, i.e. `2 * breakPoint < maxLength`), then
the last space, then a hard cut at `maxLength`. -/
def breakPointOf (m : Nat) (rem : List Char) : Nat :=
  match lastIndexOf '\n' rem m with
  | some b => if 2 * b < m then (lastIndexOf ' ' rem m).getD m else b
  | none => (lastIndexOf ' ' rem m).getD m

/-- The `while (remaining.length > 0)` loop of `splitMessage` (whatsapp.js lines
179-196), with explicit fuel; `splitMessage` supplies `length + 1` fuel, which
bounds the iteration count since every iteration (for `maxLength ≥ 1`) removes at
least one character from the remainder. -/
def splitGo (m : Nat) : Nat → List Char → List (List Char)
  | 0, _ => []
  | fuel + 1, rem =>
    if rem.length = 0 then []
    else if rem.length ≤ m then [rem]
    else
      let bp := breakPointOf m rem
      rem.take bp :: splitGo m fuel (trimBoth (rem.drop bp))

/-- `splitMessage` (whatsapp.js lines 173-199). -/
def splitMessage (message : List Char) (maxLength : Nat) : List (List Char) :=
  if message.length ≤ maxLength then [message]
  else splitGo maxLength (message.length + 1) message

/-- Helper: a found last-occurrence index is inside the list. -/
theorem lastOcc_lt_length (c : Char) :
    ∀ (l : List Char) (b : Nat), lastOcc c l = some b → b < l.length := by
  intro l
  induction l with
  | nil => intro b h; simp [lastOcc] at h
  | cons a rest ih =>
    intro b h
    simp only [lastOcc] at h
    cases hrec : lastOcc c rest with
    | some j =>
      rw [hrec] at h
      simp only [Option.some.injEq] at h
      have := ih j hrec
      simp [← h]
      omega
    | none =>
      rw [hrec] at h
      split_ifs at h with ha
      simp only [Option.some.injEq] at h
      simp [← h]

/-- Helper: `lastIndexOf` never reports an index beyond `pos`. -/
theorem lastIndexOf_le_pos (c : Char) (s : List Char) (pos b : Nat)
    (h : lastIndexOf c s pos = some b) : b ≤ pos := by
  have hlt := lastOcc_lt_length c (s.take (pos + 1)) b h
  have hlen : (s.take (pos + 1)).length ≤ pos + 1 := by
    simp [List.length_take]
  omega

/-- Helper: no occurrence, no index. -/
theorem lastOcc_none_of_not_mem (c : Char) :
    ∀ l : List Char, c ∉ l → lastOcc c l = none := by
  intro l
  induction l with
  | nil => intro _; rfl
  | cons a rest ih =>
    intro h
    have ha : ¬(a = c) := fun e => h (by simp [e])
    have hr : c ∉ rest := fun e => h (List.mem_cons_of_mem _ e)
    simp [lastOcc, ih hr, ha]

/-- Helper: `lastIndexOf` of an absent character is `none` (JS `-1`). -/
theorem lastIndexOf_none_of_not_mem (c : Char) (s : List Char) (pos : Nat)
    (h : c ∉ s) : lastIndexOf c s pos = none :=
  lastOcc_none_of_not_mem c _ (fun hm => h (List.take_subset _ _ hm))

/-- Helper: every selected break point is at most `maxLength`. -/
theorem breakPointOf_le (m : Nat) (rem : List Char) : breakPointOf m rem ≤ m := by
  unfold breakPointOf
  cases hn : lastIndexOf '\n' rem m with
  | none =>
    show (lastIndexOf ' ' rem m).getD m ≤ m
    cases hs : lastIndexOf ' ' rem m with
    | none => simp
    | some b2 => simpa using lastIndexOf_le_pos _ _ _ _ hs
  | some b =>
    show (if 2 * b < m then (lastIndexOf ' ' rem m).getD m else b) ≤ m
    by_cases h2 : 2 * b < m
    · rw [if_pos h2]
      cases hs : lastIndexOf ' ' rem m with
      | none => simp
      | some b2 => simpa using lastIndexOf_le_pos _ _ _ _ hs
    · rw [if_neg h2]
      exact lastIndexOf_le_pos _ _ _ _ hn

/-- Helper: `dropWhile` is the identity when no element satisfies the predicate. -/
theorem dropWhile_eq_self_of_forall {p : Char → Bool} :
    ∀ l : List Char, (∀ x ∈ l, p x = false) → l.dropWhile p = l := by
  intro l
  induction l with
  | nil => intro _; rfl
  | cons a rest _ =>
    intro h
    have ha : p a = false := h a (by simp)
    simp [List.dropWhile_cons, ha]

/-- Helper: `.trim()` is the identity on whitespace-free text. -/
theorem trimBoth_eq_self (s : List Char) (h : ∀ x ∈ s, isWS x = false) :
    trimBoth s = s := by
  unfold trimBoth
  rw [dropWhile_eq_self_of_forall s h,
    dropWhile_eq_self_of_forall s.reverse (fun x hx => h x (List.mem_reverse.mp hx)),
    List.reverse_reverse]

/-- Helper: every chunk the loop emits has length at most `maxLength`. -/
theorem splitGo_chunk_le (m : Nat) :
    ∀ (fuel : Nat) (rem : List Char), ∀ c ∈ splitGo m fuel rem, c.length ≤ m := by
  intro fuel
  induction fuel with
  | zero => intro rem c hc; simp [splitGo] at hc
  | succ n ih =>
    intro rem c hc
    simp only [splitGo] at hc
    by_cases h0 : rem.length = 0
    · rw [if_pos h0] at hc; simp at hc
    · rw [if_neg h0] at hc
      by_cases hle : rem.length ≤ m
      · rw [if_pos hle] at hc
        simp only [List.mem_singleton] at hc
        rw [hc]; exact hle
      · rw [if_neg hle] at hc
        rcases List.mem_cons.mp hc with h | h
        · rw [h]
          have h1 : (rem.take (breakPointOf m rem)).length ≤ breakPointOf m rem := by
            simp [List.length_take]
          exact le_trans h1 (breakPointOf_le m rem)
        · exact ih _ c h

/-- Helper: a positive-fuel step on a short non-empty remainder emits it whole. -/
theorem splitGo_of_short (m fuel : Nat) (rem : List Char) (hf : 0 < fuel)
    (h0 : rem ≠ []) (hle : rem.length ≤ m) : splitGo m fuel rem = [rem] := by
  cases fuel with
  | zero => omega
  | succ n =>
    have hne : rem.length ≠ 0 := by
      simpa [List.length_eq_zero] using h0
    simp [splitGo, hne, hle]

/-- Helper: a positive-fuel step on a long remainder cuts at the break point. -/
theorem splitGo_of_long (m fuel : Nat) (rem : List Char) (hf : 0 < fuel)
    (hlong : m < rem.length) :
    splitGo m fuel rem =
      rem.take (breakPointOf m rem) ::
        splitGo m (fuel - 1) (trimBoth (rem.drop (breakPointOf m rem))) := by
  cases fuel with
  | zero => omega
  | succ n =>
    have hne : rem.length ≠ 0 := by omega
    have hgt : ¬rem.length ≤ m := by omega
    simp [splitGo, hne, hgt]

/-- Claim C6: every chunk is at most `maxLength` long; text within the limit comes
back as the single chunk; and a 3000-character whitespace-free text at
`maxLength = 1500` splits into exactly two hard-cut chunks whose concatenation is
the original text. -/
theorem splitMessage_spec (text : List Char) (m : Nat) (hm : 1 ≤ m) :
    (∀ c ∈ splitMessage text m, c.length ≤ m) ∧
    (text.length ≤ m → splitMessage text m = [text]) ∧
    (m = 1500 → text.length = 3000 → (∀ ch ∈ text, isWS ch = false) →
      splitMessage text m = [text.take 1500, text.drop 1500] ∧
      (splitMessage text m).flatten = text) := by
  refine ⟨?_, ?_, ?_⟩
  · intro c hc
    unfold splitMessage at hc
    by_cases hle : text.length ≤ m
    · rw [if_pos hle] at hc
      simp only [List.mem_singleton] at hc
      rw [hc]; exact hle
    · rw [if_neg hle] at hc
      exact splitGo_chunk_le m _ _ c hc
  · intro hle
    simp [splitMessage, hle]
  · rintro rfl htext hws
    have hnl : '\n' ∉ text := fun hmem => by
      have := hws _ hmem; simp [isWS] at this
    have hsp : ' ' ∉ text := fun hmem => by
      have := hws _ hmem; simp [isWS] at this
    have hbp : breakPointOf 1500 text = 1500 := by
      unfold breakPointOf
      rw [lastIndexOf_none_of_not_mem '\n' text 1500 hnl,
        lastIndexOf_none_of_not_mem ' ' text 1500 hsp]
      rfl
    have hdroplen : (text.drop 1500).length = 1500 := by
      simp [List.length_drop, htext]
    have hmain : splitMessage text 1500 = [text.take 1500, text.drop 1500] := by
      have h1 : splitMessage text 1500 = splitGo 1500 (text.length + 1) text := by
        unfold splitMessage
        rw [if_neg (by omega)]
      rw [h1, htext, splitGo_of_long 1500 (3000 + 1) text (by omega) (by omega), hbp]
      rw [trimBoth_eq_self _ (fun ch hch => hws ch (List.drop_subset _ _ hch))]
      rw [splitGo_of_short 1500 (3000 + 1 - 1) (text.drop 1500) (by omega)
        (by intro he; rw [he] at hdroplen; simp at hdroplen) (by omega)]
    refine ⟨hmain, ?_⟩
    rw [hmain]
    show text.take 1500 ++ (text.drop 1500 ++ []) = text
    rw [List.append_nil, List.take_append_drop]

/-- Witness for `splitMessage_spec`: a concrete 3000-character whitespace-free
text at `maxLength = 1500` yields exactly the two 1500-character halves. -/
theorem splitMessage_spec_witness :
    splitMessage (List.replicate 3000 'a') 1500 =
      [List.replicate 1500 'a', List.replicate 1500 'a'] := by
  have h := (splitMessage_spec (List.replicate 3000 'a') 1500 (by omega)).2.2 rfl
    (List.length_replicate 3000 'a')
    (by intro ch hch; rw [List.eq_of_mem_replicate hch]; decide)
  rw [h.1, List.take_replicate, List.drop_replicate,
    show min 1500 3000 = 1500 by norm_num, show (3000 - 1500 : Nat) = 1500 by norm_num]

end AIAssistant
